import Mathlib

/-!
Formal model of the KubeCon event scorer repository.

The development shallowly embeds the algorithmic core of the repository:
the data model (src/models.py), the scoring orchestration pipeline
(src/scorer.py), the defensive response parser (src/providers/base.py),
the interval merger (src/ics_parser.py), and the conflict annotation and
top-pick selection of the report builder (src/report.py).

Modelling conventions:
- time instants (Python timezone-aware datetimes, which are totally
  ordered) are embedded as integers;
- integer scores are embedded as Int;
- the JSON layer is embedded post-decoding: a cache file on disk is
  either absent, undecodable, or a decoded list of records, and a
  provider response is either undecodable (or not a list, or empty,
  which Python treats the same through the falsiness test) or a decoded
  list of response items;
- exceptions are embedded as Except String;
- the external scoring capability is a function from the index of the
  call (a global invocation counter, which lets one model transient
  failures) and the batch to a result or a raised exception;
- sleeping is embedded by returning the list of slept durations.
-/

/-- Embedding of models.Event (src/models.py lines 12-48).  Fields that the
claims depend on are kept with their source names; datetimes become Int. -/
structure Event where
  uid : String
  summary : String
  description : String
  dtstart : Int
  dtend : Int
  location : String
  categories : List String
  url : String
deriving DecidableEq

/-- Embedding of Event.conflicts_with (src/models.py line 47-48):
self.dtstart < other.dtend and other.dtstart < self.dtend. -/
def Event.conflicts_with (self other : Event) : Bool :=
  decide (self.dtstart < other.dtend) && decide (other.dtstart < self.dtend)

/-- Convenience constructor for test events: uid, summary, start, end. -/
def mkEvent (uid summary : String) (s e : Int) : Event :=
  { uid := uid, summary := summary, description := "", dtstart := s,
    dtend := e, location := "", categories := [], url := "" }

/-- Embedding of models.ScoredEvent (src/models.py lines 51-58) with the
same defaults as the Python dataclass. -/
structure ScoredEvent where
  event : Event
  score : Int := 0
  role_relevance : Int := 0
  topic_alignment : Int := 0
  strategic_value : Int := 0
  reasoning : String := ""
deriving DecidableEq

/-- Embedding of ScoredEvent.score_tier (src/models.py lines 60-70). -/
def ScoredEvent.score_tier (se : ScoredEvent) : String :=
  if se.score ≥ 85 then "must-attend"
  else if se.score ≥ 70 then "recommended"
  else if se.score ≥ 50 then "consider"
  else if se.score ≥ 30 then "low"
  else "skip"

/-- Embedding of models.TimeSlot (src/models.py lines 85-89).  The Python
field named end is renamed end_ because end is a Lean keyword. -/
structure TimeSlot where
  start : Int
  end_ : Int
  events : List ScoredEvent
deriving DecidableEq

/-- Descending stable sort by score, the embedding of the Python idiom
list.sort(key=lambda se: -se.score) and sorted(..., key=lambda se:
-se.score).  Python sort is stable; insertion sort with a total
reflexive relation is stable in the same sense. -/
def sortByScoreDesc (l : List ScoredEvent) : List ScoredEvent :=
  List.insertionSort (fun a b => b.score ≤ a.score) l

/-- Ascending stable sort by start instant, the embedding of
sorted(..., key=lambda se: se.event.dtstart). -/
def sortByStart (l : List ScoredEvent) : List ScoredEvent :=
  List.insertionSort (fun a b => a.event.dtstart ≤ b.event.dtstart) l

/-- Embedding of the Python dict comprehension mapping each event uid to
the event, followed by a .get lookup: later bindings overwrite earlier
ones, so the lookup scans the reversed list for the first match. -/
def lookupEvent (events : List Event) (uid : String) : Option Event :=
  events.reverse.find? (fun e => e.uid == uid)

/-- One decoded record of a score cache file, mirroring the dictionaries
written by _save_scores (src/scorer.py lines 94-104). -/
structure CacheItem where
  uid : String
  score : Int
  role_relevance : Int
  topic_alignment : Int
  strategic_value : Int
  reasoning : String
deriving DecidableEq

/-- State of the score cache file on disk, post JSON decoding: the file
may be absent, present but undecodable (json.JSONDecodeError or OSError
on read), or present with a decoded list of records. -/
inductive CacheFile where
  | absent : CacheFile
  | corrupt : CacheFile
  | data : List CacheItem → CacheFile
deriving DecidableEq

/-- Rebuilding one ScoredEvent from a cached record, mirroring the body
of the loop of _load_cached_scores (src/scorer.py lines 74-83). -/
def scoredOfItem (e : Event) (it : CacheItem) : ScoredEvent :=
  { event := e, score := it.score, role_relevance := it.role_relevance,
    topic_alignment := it.topic_alignment,
    strategic_value := it.strategic_value, reasoning := it.reasoning }

/-- One iteration of the loop of _load_cached_scores (src/scorer.py
lines 70-83): a record whose uid matches no current event is skipped
(the Python continue), a matching record is rebuilt. -/
def loadItem (events : List Event) (it : CacheItem) : Option ScoredEvent :=
  (lookupEvent events it.uid).map (fun e => scoredOfItem e it)

/-- Embedding of _load_cached_scores (src/scorer.py lines 55-88): an
absent or undecodable file is a miss; otherwise every record whose uid
matches a current event is rebuilt (records with unknown uids are
skipped), and the result counts as a hit exactly when the number of
rebuilt records equals the number of current events. -/
def _load_cached_scores (cache_file : CacheFile) (events : List Event) :
    Option (List ScoredEvent) :=
  match cache_file with
  | CacheFile.absent => none
  | CacheFile.corrupt => none
  | CacheFile.data items =>
    let scored := items.filterMap (loadItem events)
    if scored.length = events.length then some scored else none

/-- Embedding of the record list built by _save_scores
(src/scorer.py lines 94-104) before it is serialized to JSON. -/
def _save_scores_data (scored_events : List ScoredEvent) : List CacheItem :=
  scored_events.map (fun se =>
    { uid := se.event.uid, score := se.score,
      role_relevance := se.role_relevance,
      topic_alignment := se.topic_alignment,
      strategic_value := se.strategic_value, reasoning := se.reasoning })

/-- Embedding of _clamp (src/providers/base.py lines 183-187) on integer
inputs; non-integer JSON values raise inside int() and are mapped to 0,
which is also the clamp of 0, so Int inputs cover the claims. -/
def _clamp (value : Int) (lo hi : Int) : Int :=
  max lo (min hi value)

/-- One decoded element of a provider response array, mirroring the
dictionaries read by _parse_response (src/providers/base.py lines
151-171).  The defaults of dict.get (empty string for uid and
reasoning, 0 for the component scores) are applied beforehand. -/
structure ResponseItem where
  uid : String
  role_relevance : Int := 0
  topic_alignment : Int := 0
  strategic_value : Int := 0
  reasoning : String := ""
deriving DecidableEq

/-- One iteration of the loop of _parse_response (src/providers/base.py
lines 152-172): a response entry whose uid matches no event is dropped
(the Python continue), a matching entry yields a record with clamped
component scores whose sum is the total. -/
def parseItem (events : List Event) (it : ResponseItem) : Option ScoredEvent :=
  (lookupEvent events it.uid).map (fun e =>
    let role := _clamp it.role_relevance 0 35
    let topic := _clamp it.topic_alignment 0 35
    let strategic := _clamp it.strategic_value 0 30
    ({ event := e, score := role + topic + strategic,
       role_relevance := role, topic_alignment := topic,
       strategic_value := strategic,
       reasoning := it.reasoning } : ScoredEvent))

/-- The scored accumulator of the loop of _parse_response
(src/providers/base.py lines 151-172): the records built from the
response entries whose uid matches an event. -/
def matchedPart (scores : List ResponseItem) (events : List Event) :
    List ScoredEvent :=
  scores.filterMap (parseItem events)

/-- The local scored_uids of _parse_response (src/providers/base.py line
175), computed once over the matched records. -/
def matchedUids (scores : List ResponseItem) (events : List Event) :
    List String :=
  (matchedPart scores events).map (fun se => se.event.uid)

/-- The default records appended for events absent from the response
(src/providers/base.py lines 176-178). -/
def defaultPart (scores : List ResponseItem) (events : List Event) :
    List ScoredEvent :=
  (events.filter
    (fun e => !((matchedUids scores events).contains e.uid))).map
    (fun e => { event := e, reasoning := "Not scored by AI" })

/-- The loop and tail of _parse_response (src/providers/base.py lines
151-180) applied to a decoded nonempty response list: the matched
records followed by the defaults for unanswered events. -/
def parseScores (scores : List ResponseItem) (events : List Event) :
    List ScoredEvent :=
  matchedPart scores events ++ defaultPart scores events

/-- Embedding of _parse_response (src/providers/base.py lines 125-180).
The input is the response post JSON decoding: none stands for a response
that neither decodes directly nor through the embedded-array fallback,
or that is not a list; the Python falsiness test also sends an empty
decoded list to the same default branch.  Response entries whose uid
matches no event are dropped, matched entries get clamped component
scores whose sum is the total, and events absent from the response are
appended with a default record. -/
def _parse_response (response : Option (List ResponseItem))
    (events : List Event) : List ScoredEvent :=
  match response with
  | none => events.map (fun e => { event := e, reasoning := "Scoring failed" })
  | some [] => events.map (fun e => { event := e, reasoning := "Scoring failed" })
  | some scores => parseScores scores events

/-- Structural recursion behind create_batches: the Python slicing loop
is driven by a fuel equal to the list length, so that every value
computes by kernel reduction.  Each step takes one slice of batch_size
events and recurses on the rest. -/
def batchesGo (batch_size : Nat) : Nat → List Event → List (List Event)
  | 0, _ => []
  | _, [] => []
  | fuel + 1, e :: evs =>
    ((e :: evs).take batch_size) :: batchesGo batch_size fuel ((e :: evs).drop batch_size)

/-- Embedding of create_batches (src/scorer.py lines 44-46): the list of
slices events[i : i + batch_size] for i in range(0, len(events),
batch_size).  A zero batch size raises ValueError in Python (range with
step 0); the claims only concern batch_size at least 1. -/
def create_batches (events : List Event) (batch_size : Nat) : List (List Event) :=
  if batch_size = 0 then [] else batchesGo batch_size events.length events

/-- Type of the external scoring capability as seen by the orchestrator:
the first argument is the index of the invocation (a run-global call
counter, letting the model express transient failures), the second the
batch; the result is the returned list or a raised exception. -/
def Scorer : Type :=
  Nat → List Event → Except String (List ScoredEvent)

/-- Placeholder ScoredEvent appended for every event of a batch whose
retries are exhausted (src/scorer.py lines 149-152): score 0, all
components 0, rationale describing the failure. -/
def failurePlaceholder (e : String) (ev : Event) : ScoredEvent :=
  { event := ev, reasoning := "Scoring failed: " ++ e }

/-- Embedding of the retry loop for one batch (src/scorer.py lines
136-152).  The argument left is max_retries minus attempt, so the
recursion is structural; attempt is the 0-indexed attempt counter used
for the backoff exponent, calls the global invocation counter.  Returns
the ScoredEvents contributed by the batch, the new invocation counter,
and the list of backoff sleeps 2 ^ (attempt + 1) performed after each
failed attempt except the last. -/
def attemptLoop (scorer : Scorer) (batch : List Event) :
    Nat → Nat → Nat → List ScoredEvent × Nat × List Nat
  | _, 0, calls =>
    match scorer calls batch with
    | Except.ok scored => (scored, calls + 1, [])
    | Except.error e => (batch.map (failurePlaceholder e), calls + 1, [])
  | attempt, left + 1, calls =>
    match scorer calls batch with
    | Except.ok scored => (scored, calls + 1, [])
    | Except.error _ =>
      let r := attemptLoop scorer batch (attempt + 1) left (calls + 1)
      (r.1, r.2.1, 2 ^ (attempt + 1) :: r.2.2)

/-- Embedding of the batch loop of score_all_events (src/scorer.py line
135): each batch runs through the retry loop and its results are
concatenated in batch order. -/
def scoreBatches (scorer : Scorer) (max_retries : Nat) :
    List (List Event) → Nat → List ScoredEvent × Nat × List Nat
  | [], calls => ([], calls, [])
  | b :: bs, calls =>
    let r := attemptLoop scorer b 0 max_retries calls
    let rest := scoreBatches scorer max_retries bs r.2.1
    (r.1 ++ rest.1, rest.2.1, r.2.2 ++ rest.2.2)

/-- Environment state of one orchestrator run: the content of the score
cache file at the path determined by the profile name and the feed
content hash (both held fixed, as the claims fix the profile and the
feed bytes), whether a write of that file raises OSError, and the
number of scorer invocations performed so far. -/
structure RunState where
  cacheFile : CacheFile
  saveFails : Bool
  calls : Nat
deriving DecidableEq

/-- Embedding of score_all_events (src/scorer.py lines 109-162).  With
caching enabled, a cache hit returns immediately; otherwise the batches
are scored with retries, the accumulated list is sorted by descending
score, and, with caching enabled, the result is written back to the
cache file - a write that raises OSError propagates out, which the
model renders as an error result.  The third component of the result is
the list of backoff sleeps performed. -/
def score_all_events (events : List Event) (scorer : Scorer)
    (batch_size : Nat) (no_cache : Bool) (max_retries : Nat)
    (st : RunState) :
    Except String (List ScoredEvent) × RunState × List Nat :=
  match if no_cache then none else _load_cached_scores st.cacheFile events with
  | some cached => (Except.ok cached, st, [])
  | none =>
    let batches := create_batches events batch_size
    let r := scoreBatches scorer max_retries batches st.calls
    let sorted := sortByScoreDesc r.1
    if no_cache then
      (Except.ok sorted, { st with calls := r.2.1 }, r.2.2)
    else if st.saveFails then
      (Except.error "OSError: cache write failed",
       { st with
         calls := r.2.1,
         cacheFile := CacheFile.corrupt }, r.2.2)
    else
      (Except.ok sorted,
       { st with
         calls := r.2.1,
         cacheFile := CacheFile.data (_save_scores_data sorted) }, r.2.2)

/-- Embedding of the sweep loop of build_timeslots (src/ics_parser.py
lines 163-188): an event starting strictly before the current end
extends the running window, otherwise the window is closed with its
members sorted by descending score and a new window opens; the final
window is emitted at the end. -/
def buildGo : List ScoredEvent → Int → Int → List ScoredEvent →
    List TimeSlot → List TimeSlot
  | [], cs, ce, cur, acc =>
    acc ++ [{ start := cs, end_ := ce, events := sortByScoreDesc cur }]
  | se :: rest, cs, ce, cur, acc =>
    if se.event.dtstart < ce then
      buildGo rest cs (max ce se.event.dtend) (cur ++ [se]) acc
    else
      buildGo rest se.event.dtstart se.event.dtend [se]
        (acc ++ [{ start := cs, end_ := ce, events := sortByScoreDesc cur }])

/-- Embedding of build_timeslots (src/ics_parser.py lines 150-190). -/
def build_timeslots (scored_events : List ScoredEvent) : List TimeSlot :=
  match sortByStart scored_events with
  | [] => []
  | first :: rest =>
    buildGo rest first.event.dtstart first.event.dtend [first] []

/-- One annotation record built by _annotate_direct_conflicts
(src/report.py lines 35-51), mirroring the keys of the Python dict. -/
structure ConflictAnnotation where
  scored_event : ScoredEvent
  has_conflict : Bool
  conflict_count : Nat
  conflict_names : List String
  conflict_extra : Nat
  best_alternative : Option ScoredEvent
deriving DecidableEq

/-- Embedding of _annotate_direct_conflicts (src/report.py lines 18-52):
for each event of a timeslot, the list of events it directly pairwise
overlaps (by index, excluding itself), sorted by descending score, with
the top 3 summaries retained, the remainder counted, and the best
direct competitor kept when it strictly outscores the event. -/
def _annotate_direct_conflicts (events : List ScoredEvent) :
    List ConflictAnnotation :=
  events.enum.map (fun p =>
    let direct := sortByScoreDesc
      ((events.enum.filter (fun q =>
        (q.1 != p.1) && p.2.event.conflicts_with q.2.event)).map (fun q => q.2))
    match direct with
    | [] =>
      { scored_event := p.2, has_conflict := false, conflict_count := 0,
        conflict_names := [], conflict_extra := 0, best_alternative := none }
    | d :: ds =>
      { scored_event := p.2, has_conflict := true,
        conflict_count := (d :: ds).length,
        conflict_names := ((d :: ds).take 3).map (fun x => x.event.summary),
        conflict_extra :=
          if (d :: ds).length > 3 then (d :: ds).length - 3 else 0,
        best_alternative := if d.score > p.2.score then some d else none })

/-- Modelled from the spec: the conflict-cluster view of section 4.5 of
the specification (connected components of the pairwise overlap relation
within one timeslot, computed by breadth expansion from each unvisited
index, components of size greater than 1 reported as clusters) is
produced outside src/ - only the direct view lives in src/report.py -
so this growth step follows the words of the specification: repeatedly
adjoin every index that directly conflicts with a member of the
component, until a fixpoint; the fuel bounds the expansion by the
number of events. -/
def growComponent (events : List ScoredEvent) : Nat → List Nat → List Nat
  | 0, comp => comp
  | fuel + 1, comp =>
    let fresh := (List.range events.length).filter (fun j =>
      !(comp.contains j) && comp.any (fun k =>
        match events[k]?, events[j]? with
        | some a, some b => a.event.conflicts_with b.event
        | _, _ => false))
    if fresh.isEmpty then comp else growComponent events fuel (comp ++ fresh)

/-- Modelled from the spec: the cluster view of section 4.5 of the
specification - start from any unvisited index, grow the component by
following direct-conflict edges transitively, mark visited; components
of size greater than 1 are the clusters, listed as index lists. -/
def conflictClusters (events : List ScoredEvent) : List (List Nat) :=
  ((List.range events.length).foldl (fun acc i =>
    if acc.2.contains i then acc
    else
      let comp := growComponent events events.length [i]
      (if comp.length > 1 then acc.1 ++ [comp] else acc.1, acc.2 ++ comp))
    ([], [])).1

/-- One iteration of the greedy pick loop of generate_report
(src/report.py lines 121-125): skip an event scoring below 50, skip an
event conflicting with an accepted pick, otherwise append it. -/
def pickStep (picks : List ScoredEvent) (se : ScoredEvent) : List ScoredEvent :=
  if se.score < 50 then picks
  else if picks.any (fun p => se.event.conflicts_with p.event) then picks
  else picks ++ [se]

/-- Embedding of the per-day top-pick selection of generate_report
(src/report.py lines 117-126): scan the day events in descending score
order, skip events scoring below 50, accept an event when it conflicts
with no already accepted pick, then sort the picks chronologically. -/
def top_picks_for_day (day_events : List ScoredEvent) : List ScoredEvent :=
  List.insertionSort (fun a b => a.event.dtstart ≤ b.event.dtstart)
    ((sortByScoreDesc day_events).foldl pickStep [])

/-! Concrete fixtures used by the example theorems, the witnesses and the
counterexamples. -/

/-- Event A of the merge and cluster examples: interval [0, 30). -/
def exA : ScoredEvent := { event := mkEvent "A" "Talk A" 0 30, score := 80 }

/-- Event B of the merge and cluster examples: interval [20, 50). -/
def exB : ScoredEvent := { event := mkEvent "B" "Talk B" 20 50, score := 90 }

/-- Event C of the cluster example: interval [45, 70). -/
def exC45 : ScoredEvent := { event := mkEvent "C" "Talk C" 45 70, score := 70 }

/-- Event C of the merge example: interval [100, 130). -/
def exC100 : ScoredEvent := { event := mkEvent "C" "Talk C" 100 130, score := 70 }

/-- Top-pick example: score 90 at [9:00, 10:00), minutes 540 to 600. -/
def pick90 : ScoredEvent := { event := mkEvent "u90" "Keynote" 540 600, score := 90 }

/-- Top-pick example: score 40 at [9:00, 10:00). -/
def pick40 : ScoredEvent := { event := mkEvent "u40" "Filler" 540 600, score := 40 }

/-- Top-pick example: score 70 at [11:00, 12:00), minutes 660 to 720. -/
def pick70 : ScoredEvent := { event := mkEvent "u70" "Deep dive" 660 720, score := 70 }

/-- Small event with uid a. -/
def evA : Event := mkEvent "a" "Session a" 0 10

/-- Small event with uid b, not overlapping evA. -/
def evB : Event := mkEvent "b" "Session b" 20 30

/-- Response item for uid a with component scores 10, 5, 2. -/
def respItemA : ResponseItem :=
  { uid := "a", role_relevance := 10, topic_alignment := 5, strategic_value := 2 }

/-- Cached record for uid a. -/
def cItemA : CacheItem :=
  { uid := "a", score := 17, role_relevance := 10, topic_alignment := 5,
    strategic_value := 2, reasoning := "cached" }

/-- Cached record for uid b. -/
def cItemB : CacheItem :=
  { uid := "b", score := 20, role_relevance := 10, topic_alignment := 5,
    strategic_value := 5, reasoning := "cached" }

/-- A scorer whose underlying model response always carries the uid a
twice: its per-batch behaviour is exactly score_batch of a provider
whose API call returns that fixed response, namely the composition of
_parse_response with a constant response. -/
def dupScorer : Scorer :=
  fun _ b => Except.ok (_parse_response (some [respItemA, respItemA]) b)

/-- A scorer that raises on every invocation. -/
def failScorer : Scorer := fun _ _ => Except.error "boom"

/-- Length of an ok result, 0 for an error; lets closed statements about
orchestrator runs avoid match expressions. -/
def okLength (x : Except String (List ScoredEvent)) : Nat :=
  match x with
  | Except.ok r => r.length
  | Except.error _ => 0

/-! Basic helper lemmas. -/

/-- The descending score sort is a permutation of its input. -/
theorem sortByScoreDesc_perm (l : List ScoredEvent) :
    List.Perm (sortByScoreDesc l) l :=
  List.perm_insertionSort _ l

/-- The chronological sort is a permutation of its input. -/
theorem sortByStart_perm (l : List ScoredEvent) :
    List.Perm (sortByStart l) l :=
  List.perm_insertionSort _ l

/-- Direct time overlap is symmetric. -/
theorem conflicts_with_symm (a b : Event) :
    a.conflicts_with b = b.conflicts_with a := by
  unfold Event.conflicts_with
  rw [Bool.and_comm]

/-- A successful uid lookup returns an event of the list. -/
theorem lookupEvent_mem {events : List Event} {u : String} {e : Event}
    (h : lookupEvent events u = some e) : e ∈ events :=
  List.mem_reverse.mp (List.mem_of_find?_eq_some h)

/-- A successful uid lookup returns an event carrying the looked-up uid. -/
theorem lookupEvent_uid {events : List Event} {u : String} {e : Event}
    (h : lookupEvent events u = some e) : e.uid = u := by
  have h2 := List.find?_some h
  exact eq_of_beq h2

/-- The uid lookup succeeds exactly when some event carries the uid. -/
theorem lookupEvent_isSome (events : List Event) (u : String) :
    (lookupEvent events u).isSome = true ↔ ∃ e ∈ events, e.uid = u := by
  unfold lookupEvent
  rw [List.find?_isSome]
  constructor
  · rintro ⟨e, he, hb⟩
    exact ⟨e, List.mem_reverse.mp he, eq_of_beq hb⟩
  · rintro ⟨e, he, hu⟩
    exact ⟨e, List.mem_reverse.mpr he, beq_iff_eq.mpr hu⟩

/-- Clamping into a nonempty interval lands in the interval. -/
theorem _clamp_bounds (v lo hi : Int) (h : lo ≤ hi) :
    lo ≤ _clamp v lo hi ∧ _clamp v lo hi ≤ hi :=
  ⟨le_max_left lo (min hi v), max_le h (min_le_left hi v)⟩

/-- C10.  score_tier is a total function of the integer score splitting
it into exactly the five tiers: must-attend iff score at least 85,
recommended iff score in [70, 85), consider iff [50, 70), low iff
[30, 50), skip iff below 30. -/
theorem score_tier_partition (se : ScoredEvent) :
    (se.score_tier = "must-attend" ∨ se.score_tier = "recommended" ∨
     se.score_tier = "consider" ∨ se.score_tier = "low" ∨
     se.score_tier = "skip")
    ∧ (se.score_tier = "must-attend" ↔ 85 ≤ se.score)
    ∧ (se.score_tier = "recommended" ↔ 70 ≤ se.score ∧ se.score < 85)
    ∧ (se.score_tier = "consider" ↔ 50 ≤ se.score ∧ se.score < 70)
    ∧ (se.score_tier = "low" ↔ 30 ≤ se.score ∧ se.score < 50)
    ∧ (se.score_tier = "skip" ↔ se.score < 30) := by
  unfold ScoredEvent.score_tier
  split_ifs with h1 h2 h3 h4
  · exact ⟨Or.inl rfl, iff_of_true rfl (by omega),
      iff_of_false (by decide) (by omega), iff_of_false (by decide) (by omega),
      iff_of_false (by decide) (by omega), iff_of_false (by decide) (by omega)⟩
  · exact ⟨Or.inr (Or.inl rfl), iff_of_false (by decide) (by omega),
      iff_of_true rfl (by omega), iff_of_false (by decide) (by omega),
      iff_of_false (by decide) (by omega), iff_of_false (by decide) (by omega)⟩
  · exact ⟨Or.inr (Or.inr (Or.inl rfl)), iff_of_false (by decide) (by omega),
      iff_of_false (by decide) (by omega), iff_of_true rfl (by omega),
      iff_of_false (by decide) (by omega), iff_of_false (by decide) (by omega)⟩
  · exact ⟨Or.inr (Or.inr (Or.inr (Or.inl rfl))),
      iff_of_false (by decide) (by omega), iff_of_false (by decide) (by omega),
      iff_of_false (by decide) (by omega), iff_of_true rfl (by omega),
      iff_of_false (by decide) (by omega)⟩
  · exact ⟨Or.inr (Or.inr (Or.inr (Or.inr rfl))),
      iff_of_false (by decide) (by omega), iff_of_false (by decide) (by omega),
      iff_of_false (by decide) (by omega), iff_of_false (by decide) (by omega),
      iff_of_true rfl (by omega)⟩

/-- C2 (amended).  score_all_events never propagates a scorer exception:
whenever caching is disabled, or the cache-file write succeeds, the run
returns an ok result list for every scorer behaviour; the only raising
path is the unguarded cache write. -/
theorem score_all_events_no_raise (events : List Event) (scorer : Scorer)
    (batch_size : Nat) (no_cache : Bool) (max_retries : Nat) (st : RunState)
    (h : no_cache = true ∨ st.saveFails = false) :
    ∃ r, (score_all_events events scorer batch_size no_cache max_retries st).1
      = Except.ok r := by
  unfold score_all_events
  cases hl : (if no_cache then none
      else _load_cached_scores st.cacheFile events) with
  | some cached => exact ⟨cached, rfl⟩
  | none =>
    rcases h with h | h
    · subst h
      exact ⟨_, rfl⟩
    · cases no_cache with
      | true => exact ⟨_, rfl⟩
      | false =>
        rw [h]
        exact ⟨_, rfl⟩

/-- C2 counterexample.  With caching enabled, a cache miss, and a
cache-file write that raises OSError, score_all_events propagates the
exception and the computed ScoredEvent list is not returned, refuting
the claim that every internal failure, including a failed cache write,
is surfaced as a diagnostic only. -/
theorem score_all_events_raises_cex :
    (score_all_events [evA] failScorer 1 false 0
      { cacheFile := CacheFile.absent, saveFails := true, calls := 0 }).1
    = Except.error "OSError: cache write failed" := by
  rfl

/-- Witness for C2: the amended no-raise theorem applied at a concrete
run with a succeeding cache write. -/
theorem score_all_events_no_raise_witness :
    ∃ r, (score_all_events [evA] failScorer 1 false 0
      { cacheFile := CacheFile.absent, saveFails := false, calls := 0 }).1
      = Except.ok r :=
  score_all_events_no_raise [evA] failScorer 1 false 0
    { cacheFile := CacheFile.absent, saveFails := false, calls := 0 }
    (Or.inr rfl)

/-! Retry-loop lemmas. -/

/-- The retry loop performs at most left + 1 scorer invocations. -/
theorem attemptLoop_calls_le (scorer : Scorer) (batch : List Event) :
    ∀ left attempt calls,
      (attemptLoop scorer batch attempt left calls).2.1 ≤ calls + left + 1 := by
  intro left
  induction left with
  | zero =>
    intro attempt calls
    unfold attemptLoop
    cases scorer calls batch with
    | ok scored =>
      show calls + 1 ≤ calls + 0 + 1
      omega
    | error e =>
      show calls + 1 ≤ calls + 0 + 1
      omega
  | succ left ih =>
    intro attempt calls
    unfold attemptLoop
    cases scorer calls batch with
    | ok scored =>
      show calls + 1 ≤ calls + (left + 1) + 1
      omega
    | error e =>
      show (attemptLoop scorer batch (attempt + 1) left (calls + 1)).2.1
        ≤ calls + (left + 1) + 1
      have := ih (attempt + 1) (calls + 1)
      omega

/-- Backoff lists agree when shifting the attempt counter by one. -/
theorem backoff_shift (attempt n : Nat) :
    2 ^ (attempt + 1) ::
      (List.range n).map (fun j => 2 ^ (attempt + 1 + j + 1))
    = (List.range (n + 1)).map (fun j => 2 ^ (attempt + j + 1)) := by
  rw [List.range_succ_eq_map, List.map_cons, List.map_map]
  refine congrArg₂ List.cons (by norm_num) ?_
  refine List.map_congr_left ?_
  intro j _
  show 2 ^ (attempt + 1 + j + 1) = 2 ^ (attempt + (j + 1) + 1)
  refine congrArg _ ?_
  omega

/-- When every attempt fails, the retry loop returns one placeholder per
batch event built from the last error, has performed left + 1 calls,
and has slept 2 ^ (attempt + j + 1) after each failed attempt j except
the last. -/
theorem attemptLoop_all_fail (scorer : Scorer) (batch : List Event) :
    ∀ left attempt calls,
      (∀ i, i ≤ left → ∃ e, scorer (calls + i) batch = Except.error e) →
      ∃ e, scorer (calls + left) batch = Except.error e ∧
        attemptLoop scorer batch attempt left calls =
          (batch.map (failurePlaceholder e), calls + left + 1,
           (List.range left).map (fun j => 2 ^ (attempt + j + 1))) := by
  intro left
  induction left with
  | zero =>
    intro attempt calls h
    obtain ⟨e, he⟩ := h 0 (Nat.le_refl 0)
    rw [Nat.add_zero] at he
    refine ⟨e, by rw [Nat.add_zero]; exact he, ?_⟩
    unfold attemptLoop
    rw [he]
    rfl
  | succ left ih =>
    intro attempt calls h
    obtain ⟨e0, he0⟩ := h 0 (Nat.zero_le _)
    rw [Nat.add_zero] at he0
    have h2 : ∀ i, i ≤ left →
        ∃ e, scorer (calls + 1 + i) batch = Except.error e := by
      intro i hi
      obtain ⟨e, he⟩ := h (i + 1) (by omega)
      exact ⟨e, by rw [show calls + 1 + i = calls + (i + 1) by omega]; exact he⟩
    obtain ⟨e, he, hrec⟩ := ih (attempt + 1) (calls + 1) h2
    refine ⟨e, ?_, ?_⟩
    · rw [show calls + (left + 1) = calls + 1 + left by omega]
      exact he
    · unfold attemptLoop
      rw [he0]
      simp only [hrec]
      refine congrArg₂ Prod.mk rfl (congrArg₂ Prod.mk (by omega) ?_)
      exact backoff_shift attempt left

/-- When the first success is at 0-indexed attempt k, the retry loop
returns exactly the scorer result of that call, has performed k + 1
calls, and has slept after each of the k failed attempts. -/
theorem attemptLoop_succeeds (scorer : Scorer) (batch : List Event) :
    ∀ k left attempt calls r, k ≤ left →
      (∀ i, i < k → ∃ e, scorer (calls + i) batch = Except.error e) →
      scorer (calls + k) batch = Except.ok r →
      attemptLoop scorer batch attempt left calls =
        (r, calls + k + 1,
         (List.range k).map (fun j => 2 ^ (attempt + j + 1))) := by
  intro k
  induction k with
  | zero =>
    intro left attempt calls r _ _ hok
    rw [Nat.add_zero] at hok
    cases left with
    | zero =>
      unfold attemptLoop
      rw [hok]
      rfl
    | succ left =>
      unfold attemptLoop
      rw [hok]
      rfl
  | succ k ih =>
    intro left attempt calls r hk hfail hok
    cases left with
    | zero => omega
    | succ left =>
      obtain ⟨e0, he0⟩ := hfail 0 (Nat.succ_pos k)
      rw [Nat.add_zero] at he0
      have h2 : ∀ i, i < k →
          ∃ e, scorer (calls + 1 + i) batch = Except.error e := by
        intro i hi
        obtain ⟨e, he⟩ := hfail (i + 1) (by omega)
        exact ⟨e, by rw [show calls + 1 + i = calls + (i + 1) by omega]; exact he⟩
      have hok2 : scorer (calls + 1 + k) batch = Except.ok r := by
        rw [show calls + 1 + k = calls + (k + 1) by omega]
        exact hok
      have hrec := ih left (attempt + 1) (calls + 1) r (by omega) h2 hok2
      unfold attemptLoop
      rw [he0]
      simp only [hrec]
      refine congrArg₂ Prod.mk rfl (congrArg₂ Prod.mk (by omega) ?_)
      exact backoff_shift attempt k

/-- C5.  Per batch the orchestrator attempts the scorer at most
max_retries + 1 times; after each failed attempt except the last
(attempt 0-indexed) it waits 2 ^ (attempt + 1) time units; a batch that
succeeds at some attempt contributes exactly the scorer result of that
attempt, and a batch whose every attempt fails contributes exactly one
placeholder ScoredEvent (score 0, all components 0, rationale naming
the failure) per event of the batch; the loop always returns instead of
aborting. -/
theorem retry_backoff_and_placeholders (scorer : Scorer)
    (batch : List Event) (max_retries calls : Nat) :
    ((attemptLoop scorer batch 0 max_retries calls).2.1
      ≤ calls + max_retries + 1)
    ∧ ((∀ i, i ≤ max_retries →
          ∃ e, scorer (calls + i) batch = Except.error e) →
        ∃ e, scorer (calls + max_retries) batch = Except.error e ∧
          attemptLoop scorer batch 0 max_retries calls =
            (batch.map (failurePlaceholder e), calls + max_retries + 1,
             (List.range max_retries).map (fun j => 2 ^ (j + 1))))
    ∧ (∀ k r, k ≤ max_retries →
        (∀ i, i < k → ∃ e, scorer (calls + i) batch = Except.error e) →
        scorer (calls + k) batch = Except.ok r →
        attemptLoop scorer batch 0 max_retries calls =
          (r, calls + k + 1,
           (List.range k).map (fun j => 2 ^ (j + 1))))
    ∧ (∀ e ev, (failurePlaceholder e ev).score = 0
        ∧ (failurePlaceholder e ev).role_relevance = 0
        ∧ (failurePlaceholder e ev).topic_alignment = 0
        ∧ (failurePlaceholder e ev).strategic_value = 0
        ∧ (failurePlaceholder e ev).reasoning = "Scoring failed: " ++ e) := by
  refine ⟨attemptLoop_calls_le scorer batch max_retries 0 calls, ?_, ?_, ?_⟩
  · intro h
    obtain ⟨e, he, heq⟩ := attemptLoop_all_fail scorer batch max_retries 0 calls h
    refine ⟨e, he, ?_⟩
    rw [heq]
    refine congrArg _ (congrArg _ (List.map_congr_left ?_))
    intro j _
    show 2 ^ (0 + j + 1) = 2 ^ (j + 1)
    refine congrArg _ ?_
    omega
  · intro k r hk hfail hok
    rw [attemptLoop_succeeds scorer batch k max_retries 0 calls r hk hfail hok]
    refine congrArg _ (congrArg _ (List.map_congr_left ?_))
    intro j _
    show 2 ^ (0 + j + 1) = 2 ^ (j + 1)
    refine congrArg _ ?_
    omega
  · intro e ev
    exact ⟨rfl, rfl, rfl, rfl, rfl⟩

/-- A scorer failing on invocations 0 and 1 and succeeding on
invocation 2 - the retry example of the specification with
max_retries = 2. -/
def twoFailScorer : Scorer :=
  fun n b =>
    if n < 2 then Except.error "transient"
    else Except.ok (b.map (fun e => { event := e, score := 50 }))

/-- Witness for C5: with max_retries = 2 the retry loop applied to the
two-failure scorer returns the successful third-attempt result after
sleeping 2 and 4 time units and performing 3 calls. -/
theorem retry_backoff_and_placeholders_witness :
    attemptLoop twoFailScorer [evA] 0 2 0 =
      ([{ event := evA, score := 50 }], 3, [2, 4]) := by
  have h := (retry_backoff_and_placeholders twoFailScorer [evA] 2 0).2.2.1
    2 [{ event := evA, score := 50 }] (by omega)
    (by
      intro i hi
      refine ⟨"transient", ?_⟩
      have : 0 + i < 2 := by omega
      show twoFailScorer (0 + i) [evA] = Except.error "transient"
      unfold twoFailScorer
      rw [if_pos this])
    (by rfl)
  exact h

/-! Timeslot merge lemmas. -/

/-- The events of the slots produced by the sweep loop are a permutation
of the accumulated slots events followed by the pending members and the
remaining input. -/
theorem buildGo_flatten (rest : List ScoredEvent) :
    ∀ cs ce cur acc,
      List.Perm ((buildGo rest cs ce cur acc).map TimeSlot.events).flatten
        ((acc.map TimeSlot.events).flatten ++ (cur ++ rest)) := by
  induction rest with
  | nil =>
    intro cs ce cur acc
    unfold buildGo
    rw [List.map_append, List.flatten_append]
    simp only [List.map_cons, List.map_nil, List.flatten_cons,
      List.flatten_nil, List.append_nil]
    exact (sortByScoreDesc_perm cur).append_left _
  | cons se rest ih =>
    intro cs ce cur acc
    unfold buildGo
    by_cases h : se.event.dtstart < ce
    · rw [if_pos h]
      have h2 := ih cs (max ce se.event.dtend) (cur ++ [se]) acc
      rw [List.append_assoc, List.singleton_append] at h2
      exact h2
    · rw [if_neg h]
      have h2 := ih se.event.dtstart se.event.dtend [se]
        (acc ++ [{ start := cs, end_ := ce, events := sortByScoreDesc cur }])
      rw [List.map_append, List.flatten_append] at h2
      simp only [List.map_cons, List.map_nil, List.flatten_cons,
        List.flatten_nil, List.append_nil, List.singleton_append] at h2
      refine h2.trans ?_
      rw [List.append_assoc]
      exact ((sortByScoreDesc_perm cur).append_right _).append_left _

/-- Every input event lands in exactly one timeslot: the concatenated
member lists are a permutation of the input. -/
theorem build_timeslots_flatten_perm (evs : List ScoredEvent) :
    List.Perm ((build_timeslots evs).map TimeSlot.events).flatten evs := by
  cases h : sortByStart evs with
  | nil =>
    have hp := sortByStart_perm evs
    rw [h] at hp
    have hevs : evs = [] := hp.symm.eq_nil
    subst hevs
    exact List.Perm.nil
  | cons first rest =>
    have hp := sortByStart_perm evs
    rw [h] at hp
    have hb := buildGo_flatten rest first.event.dtstart first.event.dtend
      [first] []
    simp only [List.map_nil, List.flatten_nil, List.nil_append,
      List.singleton_append] at hb
    unfold build_timeslots
    rw [h]
    exact hb.trans hp

/-- C6.  build_timeslots sweeps the events in start order into
transitively merged windows - every event appears in exactly one slot -
and on the example A = [0, 30), B = [20, 50), C = [100, 130) it yields
exactly the two slots [0, 50) with members B, A (descending score) and
[100, 130) with member C. -/
theorem build_timeslots_merge :
    (∀ evs, List.Perm ((build_timeslots evs).map TimeSlot.events).flatten evs)
    ∧ build_timeslots [exA, exB, exC100] =
        [{ start := 0, end_ := 50, events := [exB, exA] },
         { start := 100, end_ := 130, events := [exC100] }] :=
  ⟨build_timeslots_flatten_perm, by rfl⟩

/-! Top-pick selection lemmas. -/

instance : IsTotal ScoredEvent
    (fun a b => a.event.dtstart ≤ b.event.dtstart) :=
  ⟨fun a b => Int.le_total a.event.dtstart b.event.dtstart⟩

instance : IsTrans ScoredEvent
    (fun a b => a.event.dtstart ≤ b.event.dtstart) :=
  ⟨fun _ _ _ hab hbc => le_trans hab hbc⟩

/-- Every element accumulated by the greedy pick fold beyond the initial
accumulator scores at least 50. -/
theorem pickFold_score : ∀ (l acc : List ScoredEvent),
    (∀ p ∈ acc, 50 ≤ p.score) →
    ∀ p ∈ l.foldl pickStep acc, 50 ≤ p.score := by
  intro l
  induction l with
  | nil =>
    intro acc h p hp
    exact h p hp
  | cons a l ih =>
    intro acc h
    rw [List.foldl_cons]
    refine ih (pickStep acc a) ?_
    intro p hp
    unfold pickStep at hp
    split_ifs at hp with h1 h2
    · exact h p hp
    · exact h p hp
    · rcases List.mem_append.mp hp with h3 | h3
      · exact h p h3
      · rw [List.mem_singleton.mp h3]
        omega

/-- The greedy pick fold preserves pairwise non-conflict of the
accumulator. -/
theorem pickFold_pairwise : ∀ (l acc : List ScoredEvent),
    acc.Pairwise (fun x y => x.event.conflicts_with y.event = false) →
    (l.foldl pickStep acc).Pairwise
      (fun x y => x.event.conflicts_with y.event = false) := by
  intro l
  induction l with
  | nil =>
    intro acc h
    exact h
  | cons a l ih =>
    intro acc h
    rw [List.foldl_cons]
    refine ih (pickStep acc a) ?_
    unfold pickStep
    split_ifs with h1 h2
    · exact h
    · exact h
    · rw [List.pairwise_append]
      refine ⟨h, List.pairwise_singleton _ _, ?_⟩
      intro x hx y hy
      rw [List.mem_singleton.mp hy]
      have h3 : acc.any (fun p => a.event.conflicts_with p.event) = false :=
        Bool.not_eq_true _ |>.mp h2
      have h4 := List.any_eq_false.mp h3 x hx
      rw [conflicts_with_symm]
      exact Bool.not_eq_true _ |>.mp h4

/-- Every element produced by the greedy pick fold comes from the
accumulator or from the scanned list. -/
theorem pickFold_mem : ∀ (l acc : List ScoredEvent) (p : ScoredEvent),
    p ∈ l.foldl pickStep acc → p ∈ acc ∨ p ∈ l := by
  intro l
  induction l with
  | nil =>
    intro acc p hp
    exact Or.inl hp
  | cons a l ih =>
    intro acc p hp
    rw [List.foldl_cons] at hp
    rcases ih (pickStep acc a) p hp with h1 | h1
    · unfold pickStep at h1
      split_ifs at h1
      · exact Or.inl h1
      · exact Or.inl h1
      · rcases List.mem_append.mp h1 with h2 | h2
        · exact Or.inl h2
        · refine Or.inr ?_
          rw [List.mem_singleton.mp h2]
          exact List.mem_cons_self a l
    · exact Or.inr (List.mem_cons_of_mem a h1)

/-- C7.  The per-day top-pick list contains only events scoring at least
50, drawn from the day events, pairwise non-conflicting, sorted
chronologically by start; on the example day with events scored 90 at
[9:00, 10:00), 40 at [9:00, 10:00) and 70 at [11:00, 12:00) it is
exactly the 90 pick followed by the 70 pick. -/
theorem top_picks_selection :
    (∀ evs, ∀ p ∈ top_picks_for_day evs, 50 ≤ p.score ∧ p ∈ evs)
    ∧ (∀ evs, (top_picks_for_day evs).Pairwise
        (fun a b => a.event.conflicts_with b.event = false))
    ∧ (∀ evs, (top_picks_for_day evs).Sorted
        (fun a b => a.event.dtstart ≤ b.event.dtstart))
    ∧ top_picks_for_day [pick90, pick40, pick70] = [pick90, pick70] := by
  have hperm : ∀ evs, List.Perm (top_picks_for_day evs)
      ((sortByScoreDesc evs).foldl pickStep []) := by
    intro evs
    exact List.perm_insertionSort _ _
  refine ⟨?_, ?_, ?_, by rfl⟩
  · intro evs p hp
    have hp2 := (hperm evs).mem_iff.mp hp
    constructor
    · exact pickFold_score (sortByScoreDesc evs) [] (by intro q hq; cases hq) p hp2
    · rcases pickFold_mem (sortByScoreDesc evs) [] p hp2 with h1 | h1
      · cases h1
      · exact (sortByScoreDesc_perm evs).mem_iff.mp h1
  · intro evs
    have hpw := pickFold_pairwise (sortByScoreDesc evs) [] (List.Pairwise.nil)
    have hsymm : Symmetric
        (fun x y : ScoredEvent => x.event.conflicts_with y.event = false) := by
      intro x y hxy
      rw [conflicts_with_symm]
      exact hxy
    exact ((hperm evs).pairwise_iff @hsymm).mpr hpw
  · intro evs
    exact List.sorted_insertionSort _ _

/-- Witness for C7: the selection theorem applied to the example day,
giving the threshold bound and source membership of the 90 pick. -/
theorem top_picks_selection_witness :
    50 ≤ pick90.score ∧ pick90 ∈ [pick90, pick40, pick70] :=
  top_picks_selection.1 [pick90, pick40, pick70] pick90 (by decide)

/-- The direct-conflict annotation covers each timeslot member. -/
theorem annotate_direct_length (evs : List ScoredEvent) :
    (_annotate_direct_conflicts evs).length = evs.length := by
  unfold _annotate_direct_conflicts
  rw [List.length_map, List.enum_length]

/-- C4.  Both conflict views on the cluster example A = [0, 30),
B = [20, 50), C = [45, 70): the per-event direct view lists exactly the
pairwise overlaps (A with B, B with A and C, C with B, never A with C),
sorted by descending score with top 3 names and remainder count, and
the best-alternative field set exactly when the top direct competitor
strictly outscores the event (B outscores A and C, nothing outscores
B); the cluster view places all three indices in one connected
component of size 3; the annotation always covers every member. -/
theorem conflict_views_direct_and_clusters :
    (∀ evs, (_annotate_direct_conflicts evs).length = evs.length)
    ∧ exA.event.conflicts_with exB.event = true
    ∧ exB.event.conflicts_with exC45.event = true
    ∧ exA.event.conflicts_with exC45.event = false
    ∧ _annotate_direct_conflicts [exA, exB, exC45] =
        [{ scored_event := exA, has_conflict := true, conflict_count := 1,
           conflict_names := ["Talk B"], conflict_extra := 0,
           best_alternative := some exB },
         { scored_event := exB, has_conflict := true, conflict_count := 2,
           conflict_names := ["Talk A", "Talk C"], conflict_extra := 0,
           best_alternative := none },
         { scored_event := exC45, has_conflict := true, conflict_count := 1,
           conflict_names := ["Talk B"], conflict_extra := 0,
           best_alternative := some exB }]
    ∧ conflictClusters [exA, exB, exC45] = [[0, 1, 2]] :=
  ⟨annotate_direct_length, by rfl, by rfl, by rfl, by rfl, by rfl⟩

/-! Cache lookup lemmas. -/

/-- The length of a filterMap is the number of inputs on which the
function succeeds. -/
theorem length_filterMap_isSome {α β : Type} (f : α → Option β) :
    ∀ l : List α,
      (l.filterMap f).length = (l.filter (fun a => (f a).isSome)).length := by
  intro l
  induction l with
  | nil => rfl
  | cons a l ih =>
    rw [List.filterMap_cons, List.filter_cons]
    cases h : f a with
    | none => simp [h, ih]
    | some b => simp [h, ih]

/-- Rebuilding a cached record succeeds exactly when its uid lookup
succeeds. -/
theorem loadItem_isSome (events : List Event) :
    (fun it : CacheItem => (loadItem events it).isSome)
      = (fun it => (lookupEvent events it.uid).isSome) := by
  funext it
  unfold loadItem
  cases lookupEvent events it.uid <;> rfl

/-- The uids of the records rebuilt by the cache loader are the uids of
the stored records whose lookup succeeds. -/
theorem filterMap_loadItem_uids (events : List Event) :
    ∀ items : List CacheItem,
      (items.filterMap (loadItem events)).map (fun se => se.event.uid)
        = (items.filter
            (fun it => (lookupEvent events it.uid).isSome)).map
              CacheItem.uid := by
  intro items
  induction items with
  | nil => rfl
  | cons a l ih =>
    rw [List.filterMap_cons, List.filter_cons]
    cases h : lookupEvent events a.uid with
    | none =>
      have h2 : loadItem events a = none := by
        unfold loadItem
        rw [h]
        rfl
      simp [h2, h, ih]
    | some e =>
      have h2 : loadItem events a = some (scoredOfItem e a) := by
        unfold loadItem
        rw [h]
        rfl
      have h3 : e.uid = a.uid := lookupEvent_uid h
      simp [h2, h, ih]
      exact h3

/-- Under duplicate-free uids on both sides, a cache hit forces the
stored record to cover every uid of the current event list. -/
theorem load_data_covers (items : List CacheItem) (events : List Event)
    (h2 : (items.map CacheItem.uid).Nodup)
    (scored : List ScoredEvent)
    (hl : _load_cached_scores (CacheFile.data items) events = some scored) :
    ∀ e ∈ events, ∃ it ∈ items, it.uid = e.uid := by
  intro e he
  by_contra hno
  push_neg at hno
  have hl2 : (if (items.filterMap (loadItem events)).length = events.length
      then some (items.filterMap (loadItem events)) else none)
        = some scored := hl
  by_cases hc : (items.filterMap (loadItem events)).length = events.length
  · have hml := length_filterMap_isSome (loadItem events) items
    rw [loadItem_isSome events] at hml
    have hnd : ((items.filter
        (fun it => (lookupEvent events it.uid).isSome)).map
          CacheItem.uid).Nodup :=
      h2.sublist ((List.filter_sublist items).map CacheItem.uid)
    have hsub : ((items.filter
        (fun it => (lookupEvent events it.uid).isSome)).map CacheItem.uid)
          ⊆ (events.map Event.uid).erase e.uid := by
      intro u hu
      rcases List.mem_map.mp hu with ⟨it, hit, rfl⟩
      have hmem := List.mem_of_mem_filter hit
      have hs := (List.mem_filter.mp hit).2
      rcases (lookupEvent_isSome events it.uid).mp hs with ⟨e2, he2, hu2⟩
      have hne : it.uid ≠ e.uid := hno it hmem
      rw [List.mem_erase_of_ne hne]
      exact List.mem_map.mpr ⟨e2, he2, hu2⟩
    have hle := (hnd.subperm hsub).length_le
    rw [List.length_erase_of_mem (List.mem_map.mpr ⟨e, he, rfl⟩),
      List.length_map, List.length_map] at hle
    have hpos : 0 < events.length :=
      List.length_pos.mpr (List.ne_nil_of_mem he)
    omega
  · rw [if_neg hc] at hl2
    exact Option.noConfusion hl2

/-- C3 (amended).  An absent or undecodable cache file is a miss; a hit
is never a partial list (it always has exactly one rebuilt record per
current event); and when the stored record uids are duplicate-free, a
hit requires the stored record to contain a score for every uid of the
current event list - so gaining a uid relative to the cached record
forces a full miss, while losing a uid still yields a hit (see the
counterexample). -/
theorem load_cached_scores_hit_conditions (items : List CacheItem)
    (events : List Event)
    (h2 : (items.map CacheItem.uid).Nodup) :
    _load_cached_scores CacheFile.absent events = none
    ∧ _load_cached_scores CacheFile.corrupt events = none
    ∧ (∀ scored,
        _load_cached_scores (CacheFile.data items) events = some scored →
        scored.length = events.length
        ∧ ∀ e ∈ events, ∃ it ∈ items, it.uid = e.uid) := by
  refine ⟨rfl, rfl, ?_⟩
  intro scored hl
  refine ⟨?_, load_data_covers items events h2 scored hl⟩
  have hl2 : (if (items.filterMap (loadItem events)).length = events.length
      then some (items.filterMap (loadItem events)) else none)
        = some scored := hl
  by_cases hc : (items.filterMap (loadItem events)).length = events.length
  · rw [if_pos hc] at hl2
    rw [← Option.some.inj hl2]
    exact hc
  · rw [if_neg hc] at hl2
    exact Option.noConfusion hl2

/-- Witness for C3: the hit-condition theorem applied to a one-event,
one-record cache with matching uid. -/
theorem load_cached_scores_hit_conditions_witness :
    [scoredOfItem evA cItemA].length = [evA].length
    ∧ ∀ e ∈ [evA], ∃ it ∈ [cItemA], it.uid = e.uid :=
  (load_cached_scores_hit_conditions [cItemA] [evA]
    (by decide)).2.2 [scoredOfItem evA cItemA] (by rfl)

/-- C3 counterexample.  A cached record holding uids a and b is a hit
for the current event list holding only uid a - the event set lost uid
b relative to the cached record, yet the scorer is not invoked - and a
cached record holding uid a twice is a hit for the event list holding
uids a and b even though the record contains no score for uid b,
refuting both the every-uid hit condition and the forced full miss on
a lost uid. -/
theorem load_cached_scores_cex :
    _load_cached_scores (CacheFile.data [cItemA, cItemB]) [evA] =
      some [scoredOfItem evA cItemA]
    ∧ cItemB.uid ∉ [evA].map Event.uid
    ∧ (_load_cached_scores
        (CacheFile.data [cItemA, cItemA]) [evA, evB]).isSome = true
    ∧ evB.uid ∉ [cItemA, cItemA].map CacheItem.uid := by
  refine ⟨by rfl, by decide, by rfl, by decide⟩

/-! Response parsing lemmas. -/

/-- Parsing a response entry succeeds exactly when its uid lookup
succeeds. -/
theorem parseItem_isSome (events : List Event) :
    (fun it : ResponseItem => (parseItem events it).isSome)
      = (fun it => (lookupEvent events it.uid).isSome) := by
  funext it
  unfold parseItem
  cases lookupEvent events it.uid <;> rfl

/-- A record built from a response entry belongs to the batch, carries
the entry uid, and satisfies the component invariant with clamped
bounds. -/
theorem parseItem_some {events : List Event} {it : ResponseItem}
    {se : ScoredEvent} (h : parseItem events it = some se) :
    se.event ∈ events ∧ se.event.uid = it.uid
    ∧ se.score = se.role_relevance + se.topic_alignment + se.strategic_value
    ∧ 0 ≤ se.role_relevance ∧ se.role_relevance ≤ 35
    ∧ 0 ≤ se.topic_alignment ∧ se.topic_alignment ≤ 35
    ∧ 0 ≤ se.strategic_value ∧ se.strategic_value ≤ 30 := by
  unfold parseItem at h
  cases hl : lookupEvent events it.uid with
  | none =>
    rw [hl] at h
    exact Option.noConfusion h
  | some e =>
    rw [hl] at h
    have h2 := Option.some.inj h
    rw [← h2]
    exact ⟨lookupEvent_mem hl, lookupEvent_uid hl, rfl,
      (_clamp_bounds it.role_relevance 0 35 (by norm_num)).1,
      (_clamp_bounds it.role_relevance 0 35 (by norm_num)).2,
      (_clamp_bounds it.topic_alignment 0 35 (by norm_num)).1,
      (_clamp_bounds it.topic_alignment 0 35 (by norm_num)).2,
      (_clamp_bounds it.strategic_value 0 30 (by norm_num)).1,
      (_clamp_bounds it.strategic_value 0 30 (by norm_num)).2⟩

/-- The uids of the matched records are the uids of the response entries
whose lookup succeeds. -/
theorem matchedUids_eq (events : List Event) :
    ∀ scores : List ResponseItem,
      matchedUids scores events
        = (scores.filter
            (fun it => (lookupEvent events it.uid).isSome)).map
              ResponseItem.uid := by
  intro scores
  induction scores with
  | nil => rfl
  | cons a l ih =>
    unfold matchedUids matchedPart at ih ⊢
    rw [List.filterMap_cons, List.filter_cons]
    cases h : lookupEvent events a.uid with
    | none =>
      have h2 : parseItem events a = none := by
        unfold parseItem
        rw [h]
        rfl
      simp [h2, h, ih]
    | some e =>
      have h2 : (parseItem events a).isSome = true := by
        rw [congrFun (parseItem_isSome events) a, h]
        rfl
      obtain ⟨se, hse⟩ := Option.isSome_iff_exists.mp h2
      have h3 := (parseItem_some hse).2.1
      simp [hse, h, ih]
      exact h3

/-- The uids of the matched records are duplicate-free when the response
uids are. -/
theorem matchedUids_nodup (events : List Event)
    (scores : List ResponseItem)
    (h2 : (scores.map ResponseItem.uid).Nodup) :
    (matchedUids scores events).Nodup := by
  rw [matchedUids_eq events scores]
  exact h2.sublist ((List.filter_sublist scores).map ResponseItem.uid)

/-- Matched uids come from the response. -/
theorem matchedUids_subset_scores (events : List Event)
    (scores : List ResponseItem) :
    matchedUids scores events ⊆ scores.map ResponseItem.uid := by
  rw [matchedUids_eq events scores]
  intro u hu
  rcases List.mem_map.mp hu with ⟨it, hit, rfl⟩
  exact List.mem_map.mpr ⟨it, List.mem_of_mem_filter hit, rfl⟩

/-- Matched uids belong to the current batch. -/
theorem matchedUids_subset_events (events : List Event)
    (scores : List ResponseItem) :
    matchedUids scores events ⊆ events.map Event.uid := by
  rw [matchedUids_eq events scores]
  intro u hu
  rcases List.mem_map.mp hu with ⟨it, hit, rfl⟩
  have hs := (List.mem_filter.mp hit).2
  rcases (lookupEvent_isSome events it.uid).mp hs with ⟨e2, he2, hu2⟩
  exact List.mem_map.mpr ⟨e2, he2, hu2⟩

/-- The uids of the default records are the uids of the events that the
matched records do not cover. -/
theorem defaultPart_uids (scores : List ResponseItem)
    (events : List Event) :
    (defaultPart scores events).map (fun se => se.event.uid)
      = (events.filter
          (fun e => !((matchedUids scores events).contains e.uid))).map
            Event.uid := by
  unfold defaultPart
  rw [List.map_map]
  rfl

/-- A default record uid never collides with a matched uid. -/
theorem defaultPart_uids_disjoint (scores : List ResponseItem)
    (events : List Event) :
    ∀ u ∈ (defaultPart scores events).map (fun se => se.event.uid),
      u ∉ matchedUids scores events := by
  intro u hu
  rw [defaultPart_uids scores events] at hu
  rcases List.mem_map.mp hu with ⟨e, he, rfl⟩
  have hcond := (List.mem_filter.mp he).2
  intro hmem
  have : (matchedUids scores events).contains e.uid = true :=
    List.elem_iff.mpr hmem
  rw [this] at hcond
  exact Bool.noConfusion hcond

/-- The output uids of the parsing tail are duplicate-free and a
permutation of the batch uids, when both the batch uids and the
response uids are duplicate-free. -/
theorem parseScores_uids (scores : List ResponseItem)
    (events : List Event)
    (h1 : (events.map Event.uid).Nodup)
    (h2 : (scores.map ResponseItem.uid).Nodup) :
    ((parseScores scores events).map (fun se => se.event.uid)).Nodup
    ∧ List.Perm
        ((parseScores scores events).map (fun se => se.event.uid))
        (events.map Event.uid) := by
  have houtEq : (parseScores scores events).map (fun se => se.event.uid)
      = matchedUids scores events
        ++ (defaultPart scores events).map (fun se => se.event.uid) := by
    unfold parseScores matchedUids
    rw [List.map_append]
  have hdnodup : ((defaultPart scores events).map
      (fun se => se.event.uid)).Nodup := by
    rw [defaultPart_uids scores events]
    exact h1.sublist ((List.filter_sublist events).map Event.uid)
  have hnodup : ((parseScores scores events).map
      (fun se => se.event.uid)).Nodup := by
    rw [houtEq, List.nodup_append]
    refine ⟨matchedUids_nodup events scores h2, hdnodup, ?_⟩
    intro u hu hud
    exact defaultPart_uids_disjoint scores events u hud hu
  refine ⟨hnodup, ?_⟩
  have hsub1 : (parseScores scores events).map (fun se => se.event.uid)
      ⊆ events.map Event.uid := by
    rw [houtEq]
    intro u hu
    rcases List.mem_append.mp hu with h | h
    · exact matchedUids_subset_events events scores h
    · rw [defaultPart_uids scores events] at h
      rcases List.mem_map.mp h with ⟨e, he, rfl⟩
      exact List.mem_map.mpr ⟨e, List.mem_of_mem_filter he, rfl⟩
  have hsub2 : events.map Event.uid
      ⊆ (parseScores scores events).map (fun se => se.event.uid) := by
    intro u hu
    rcases List.mem_map.mp hu with ⟨e, he, rfl⟩
    rw [houtEq]
    by_cases hc : (matchedUids scores events).contains e.uid = true
    · exact List.mem_append.mpr (Or.inl (List.elem_iff.mp hc))
    · refine List.mem_append.mpr (Or.inr ?_)
      rw [defaultPart_uids scores events]
      refine List.mem_map.mpr ⟨e, ?_, rfl⟩
      refine List.mem_filter.mpr ⟨he, ?_⟩
      rw [Bool.eq_false_iff.mpr hc]
      rfl
  exact (hnodup.subperm hsub1).antisymm (h1.subperm hsub2)

/-- The all-zero default records satisfy the component invariant and
bounds. -/
theorem zeroRecord_invariant (e : Event) (s : String) :
    ({ event := e, reasoning := s } : ScoredEvent).score
      = ({ event := e, reasoning := s } : ScoredEvent).role_relevance
        + ({ event := e, reasoning := s } : ScoredEvent).topic_alignment
        + ({ event := e, reasoning := s } : ScoredEvent).strategic_value
    ∧ 0 ≤ ({ event := e, reasoning := s } : ScoredEvent).role_relevance
    ∧ ({ event := e, reasoning := s } : ScoredEvent).role_relevance ≤ 35
    ∧ 0 ≤ ({ event := e, reasoning := s } : ScoredEvent).topic_alignment
    ∧ ({ event := e, reasoning := s } : ScoredEvent).topic_alignment ≤ 35
    ∧ 0 ≤ ({ event := e, reasoning := s } : ScoredEvent).strategic_value
    ∧ ({ event := e, reasoning := s } : ScoredEvent).strategic_value ≤ 30 := by
  refine ⟨rfl, le_refl 0, ?_, le_refl 0, ?_, le_refl 0, ?_⟩
  · show (0 : Int) ≤ 35
    norm_num
  · show (0 : Int) ≤ 35
    norm_num
  · show (0 : Int) ≤ 30
    norm_num

/-- Routing of a nonempty decoded response list. -/
theorem parse_response_route (scores : List ResponseItem)
    (events : List Event) (hne : scores ≠ []) :
    _parse_response (some scores) events = parseScores scores events := by
  cases scores with
  | nil => exact absurd rfl hne
  | cons a l => rfl

/-- C9 (amended).  Every record produced by response parsing satisfies
total = role + topic + strategic with the components clamped into
0..35, 0..35 and 0..30; every produced record belongs to the input
batch (entries with unknown uids are discarded); every batch event
missing from the response receives the default not-scored record; and,
provided the batch uids and the response uids are each duplicate-free,
the output has exactly one record per input event. -/
theorem parse_response_record_properties (scores : List ResponseItem)
    (events : List Event)
    (h1 : (events.map Event.uid).Nodup)
    (h2 : (scores.map ResponseItem.uid).Nodup)
    (hne : scores ≠ []) :
    (∀ resp evs, ∀ se ∈ _parse_response resp evs,
        se.score = se.role_relevance + se.topic_alignment
          + se.strategic_value
        ∧ 0 ≤ se.role_relevance ∧ se.role_relevance ≤ 35
        ∧ 0 ≤ se.topic_alignment ∧ se.topic_alignment ≤ 35
        ∧ 0 ≤ se.strategic_value ∧ se.strategic_value ≤ 30)
    ∧ (_parse_response (some scores) events).length = events.length
    ∧ (∀ e ∈ events,
        ((_parse_response (some scores) events).filter
          (fun se => se.event.uid == e.uid)).length = 1)
    ∧ (∀ se ∈ _parse_response (some scores) events, se.event ∈ events)
    ∧ (∀ e ∈ events, e.uid ∉ scores.map ResponseItem.uid →
        ({ event := e, reasoning := "Not scored by AI" } : ScoredEvent)
          ∈ _parse_response (some scores) events) := by
  obtain ⟨hnd, hperm⟩ := parseScores_uids scores events h1 h2
  have hroute := parse_response_route scores events hne
  refine ⟨?_, ?_, ?_, ?_, ?_⟩
  · intro resp evs se hse
    cases resp with
    | none =>
      rcases List.mem_map.mp hse with ⟨e, _, h3⟩
      rw [← h3]
      exact zeroRecord_invariant _ _
    | some scores2 =>
      cases scores2 with
      | nil =>
        rcases List.mem_map.mp hse with ⟨e, _, h3⟩
        rw [← h3]
        exact zeroRecord_invariant _ _
      | cons a l =>
        rcases List.mem_append.mp hse with h3 | h3
        · rcases List.mem_filterMap.mp h3 with ⟨it, _, hpi⟩
          exact (parseItem_some hpi).2.2
        · rcases List.mem_map.mp h3 with ⟨e, _, h4⟩
          rw [← h4]
          exact zeroRecord_invariant _ _
  · rw [hroute]
    have hl1 : (parseScores scores events).length
        = ((parseScores scores events).map (fun se => se.event.uid)).length :=
      (List.length_map _ _).symm
    rw [hl1, hperm.length_eq, List.length_map]
  · intro e he
    rw [hroute]
    have hmemU : e.uid ∈ (parseScores scores events).map
        (fun se => se.event.uid) :=
      hperm.mem_iff.mpr (List.mem_map.mpr ⟨e, he, rfl⟩)
    have hcount := List.count_eq_one_of_mem hnd hmemU
    rw [← List.countP_eq_length_filter]
    rw [List.count] at hcount
    rw [List.countP_map] at hcount
    exact hcount
  · intro se hse
    rw [hroute] at hse
    rcases List.mem_append.mp hse with h3 | h3
    · rcases List.mem_filterMap.mp h3 with ⟨it, _, hpi⟩
      exact (parseItem_some hpi).1
    · rcases List.mem_map.mp h3 with ⟨e, he2, h4⟩
      rw [← h4]
      exact List.mem_of_mem_filter he2
  · intro e he hnotin
    rw [hroute]
    have hnm : e.uid ∉ matchedUids scores events := by
      intro hmem
      exact hnotin (matchedUids_subset_scores events scores hmem)
    have hc : (matchedUids scores events).contains e.uid = false := by
      cases hc2 : (matchedUids scores events).contains e.uid with
      | false => rfl
      | true => exact absurd (List.elem_iff.mp hc2) hnm
    refine List.mem_append.mpr (Or.inr ?_)
    unfold defaultPart
    refine List.mem_map.mpr ⟨e, ?_, rfl⟩
    refine List.mem_filter.mpr ⟨he, ?_⟩
    rw [hc]
    rfl

/-- Witness for C9: the parsing theorem applied to a one-entry response
over a two-event batch with duplicate-free uids. -/
theorem parse_response_record_properties_witness :
    (_parse_response (some [respItemA]) [evA, evB]).length
      = [evA, evB].length :=
  (parse_response_record_properties [respItemA] [evA, evB]
    (by decide) (by decide) (by decide)).2.1

/-- C9 counterexample.  A decoded response carrying the uid a twice over
the two-event batch a, b makes _parse_response return three records -
two for event a plus the default for event b - refuting the claim that
parsing yields exactly one ScoredEvent per input event. -/
theorem parse_response_duplicate_uid_cex :
    (_parse_response (some [respItemA, respItemA]) [evA, evB]).length = 3
    ∧ [evA, evB].length = 2
    ∧ ((_parse_response (some [respItemA, respItemA]) [evA, evB]).filter
        (fun se => se.event.uid == "a")).length = 2 :=
  ⟨by rfl, by rfl, by rfl⟩

/-! Batching lemmas. -/

/-- With enough fuel, concatenating the slices restores the input. -/
theorem batchesGo_flatten (batch_size : Nat) (hbs : 1 ≤ batch_size) :
    ∀ fuel evs, evs.length ≤ fuel →
      (batchesGo batch_size fuel evs).flatten = evs := by
  intro fuel
  induction fuel with
  | zero =>
    intro evs h
    rw [List.length_eq_zero.mp (Nat.le_zero.mp h)]
    rfl
  | succ fuel ih =>
    intro evs h
    cases evs with
    | nil => rfl
    | cons e t =>
      have hlen : ((e :: t).drop batch_size).length ≤ fuel := by
        rw [List.length_drop]
        simp only [List.length_cons] at h ⊢
        omega
      show ((e :: t).take batch_size
        :: batchesGo batch_size fuel ((e :: t).drop batch_size)).flatten
          = e :: t
      rw [List.flatten_cons, ih ((e :: t).drop batch_size) hlen,
        List.take_append_drop]

/-- create_batches splits without losing or duplicating events. -/
theorem create_batches_flatten (events : List Event) (batch_size : Nat)
    (hbs : 1 ≤ batch_size) :
    (create_batches events batch_size).flatten = events := by
  unfold create_batches
  rw [if_neg (by omega)]
  exact batchesGo_flatten batch_size hbs events.length events (Nat.le_refl _)

/-- Every batch draws from the input events. -/
theorem batchesGo_subset (batch_size : Nat) :
    ∀ fuel evs b, b ∈ batchesGo batch_size fuel evs → b ⊆ evs := by
  intro fuel
  induction fuel with
  | zero =>
    intro evs b hb
    cases evs with
    | nil => cases hb
    | cons e t => cases hb
  | succ fuel ih =>
    intro evs b hb
    cases evs with
    | nil => cases hb
    | cons e t =>
      rcases List.mem_cons.mp hb with h | h
      · rw [h]
        exact List.take_subset _ _
      · exact (ih _ b h).trans (List.drop_subset _ _)

/-- Every batch of create_batches draws from the input events. -/
theorem create_batches_subset (events : List Event) (batch_size : Nat)
    (b : List Event) (hb : b ∈ create_batches events batch_size) :
    b ⊆ events := by
  unfold create_batches at hb
  by_cases h : batch_size = 0
  · rw [if_pos h] at hb
    cases hb
  · rw [if_neg h] at hb
    exact batchesGo_subset batch_size events.length events b hb

/-! Batch loop lemmas. -/

/-- Under the per-batch length contract, the retry loop contributes one
record per batch event. -/
theorem attemptLoop_length (scorer : Scorer) (batch : List Event)
    (H : ∀ n r, scorer n batch = Except.ok r → r.length = batch.length) :
    ∀ left attempt calls,
      ((attemptLoop scorer batch attempt left calls).1).length
        = batch.length := by
  intro left
  induction left with
  | zero =>
    intro attempt calls
    unfold attemptLoop
    cases h : scorer calls batch with
    | ok scored => exact H calls scored h
    | error e => exact List.length_map batch _
  | succ left ih =>
    intro attempt calls
    unfold attemptLoop
    cases h : scorer calls batch with
    | ok scored => exact H calls scored h
    | error e => exact ih (attempt + 1) (calls + 1)

/-- Under the per-batch membership contract, every record contributed by
the retry loop carries an event of the batch. -/
theorem attemptLoop_mem (scorer : Scorer) (batch : List Event)
    (H : ∀ n r, scorer n batch = Except.ok r → ∀ se ∈ r, se.event ∈ batch) :
    ∀ left attempt calls se,
      se ∈ (attemptLoop scorer batch attempt left calls).1 →
      se.event ∈ batch := by
  intro left
  induction left with
  | zero =>
    intro attempt calls se hse
    revert hse
    unfold attemptLoop
    cases h : scorer calls batch with
    | ok scored => exact fun hse => H calls scored h se hse
    | error e =>
      intro hse
      rcases List.mem_map.mp hse with ⟨ev, hev, h2⟩
      rw [← h2]
      exact hev
  | succ left ih =>
    intro attempt calls se hse
    revert hse
    unfold attemptLoop
    cases h : scorer calls batch with
    | ok scored => exact fun hse => H calls scored h se hse
    | error e => exact fun hse => ih (attempt + 1) (calls + 1) se hse

/-- When the scorer never succeeds, the retry loop contributes only
score-0 placeholders. -/
theorem attemptLoop_fail_scores (scorer : Scorer) (batch : List Event)
    (hfail : ∀ n r, scorer n batch ≠ Except.ok r) :
    ∀ left attempt calls se,
      se ∈ (attemptLoop scorer batch attempt left calls).1 →
      se.score = 0 := by
  intro left
  induction left with
  | zero =>
    intro attempt calls se hse
    revert hse
    unfold attemptLoop
    cases h : scorer calls batch with
    | ok scored => exact absurd h (hfail calls scored)
    | error e =>
      intro hse
      rcases List.mem_map.mp hse with ⟨ev, _, h2⟩
      rw [← h2]
      rfl
  | succ left ih =>
    intro attempt calls se hse
    revert hse
    unfold attemptLoop
    cases h : scorer calls batch with
    | ok scored => exact absurd h (hfail calls scored)
    | error e => exact fun hse => ih (attempt + 1) (calls + 1) se hse

/-- Under the length contract, the batch loop contributes exactly as
many records as the batches hold events. -/
theorem scoreBatches_length (scorer : Scorer) (max_retries : Nat)
    (H : ∀ n b r, scorer n b = Except.ok r → r.length = b.length) :
    ∀ batches calls,
      ((scoreBatches scorer max_retries batches calls).1).length
        = batches.flatten.length := by
  intro batches
  induction batches with
  | nil =>
    intro calls
    rfl
  | cons b bs ih =>
    intro calls
    show ((attemptLoop scorer b 0 max_retries calls).1
      ++ (scoreBatches scorer max_retries bs
          (attemptLoop scorer b 0 max_retries calls).2.1).1).length
        = ((b :: bs).flatten).length
    rw [List.length_append, List.flatten_cons, List.length_append,
      attemptLoop_length scorer b (fun n r h => H n b r h) max_retries 0 calls,
      ih]

/-- Every record contributed by the batch loop carries an event of some
batch, under the membership contract. -/
theorem scoreBatches_mem (scorer : Scorer) (max_retries : Nat)
    (H : ∀ n b r, scorer n b = Except.ok r → ∀ se ∈ r, se.event ∈ b) :
    ∀ batches calls se,
      se ∈ (scoreBatches scorer max_retries batches calls).1 →
      ∃ b ∈ batches, se.event ∈ b := by
  intro batches
  induction batches with
  | nil =>
    intro calls se hse
    cases hse
  | cons b bs ih =>
    intro calls se hse
    rcases List.mem_append.mp hse with h | h
    · exact ⟨b, List.mem_cons_self b bs,
        attemptLoop_mem scorer b (fun n r hr => H n b r hr)
          max_retries 0 calls se h⟩
    · obtain ⟨b2, hb2, hm⟩ := ih _ se h
      exact ⟨b2, List.mem_cons_of_mem b hb2, hm⟩

/-- When the scorer never succeeds, every contributed record has
score 0. -/
theorem scoreBatches_fail_scores (scorer : Scorer) (max_retries : Nat)
    (hfail : ∀ n b r, scorer n b ≠ Except.ok r) :
    ∀ batches calls se,
      se ∈ (scoreBatches scorer max_retries batches calls).1 →
      se.score = 0 := by
  intro batches
  induction batches with
  | nil =>
    intro calls se hse
    cases hse
  | cons b bs ih =>
    intro calls se hse
    rcases List.mem_append.mp hse with h | h
    · exact attemptLoop_fail_scores scorer b (fun n r => hfail n b r)
        max_retries 0 calls se h
    · exact ih _ se h

/-- A cache hit always carries exactly one record per current event. -/
theorem load_some_length {cf : CacheFile} {events : List Event}
    {scored : List ScoredEvent}
    (h : _load_cached_scores cf events = some scored) :
    scored.length = events.length := by
  cases cf with
  | absent => exact Option.noConfusion h
  | corrupt => exact Option.noConfusion h
  | data items =>
    have h2 : (if (items.filterMap (loadItem events)).length = events.length
        then some (items.filterMap (loadItem events)) else none)
          = some scored := h
    by_cases hc : (items.filterMap (loadItem events)).length = events.length
    · rw [if_pos hc] at h2
      rw [← Option.some.inj h2]
      exact hc
    · rw [if_neg hc] at h2
      exact Option.noConfusion h2

/-- C1 (amended).  Whenever score_all_events returns a list at all,
that list has exactly one entry per input event, provided every
successful scorer invocation returns one ScoredEvent per event of its
batch; and under a scorer that raises on every invocation the returned
list consists of exactly one score-0 placeholder per input event,
with no proviso. -/
theorem score_all_events_output_length (events : List Event)
    (scorer : Scorer) (batch_size max_retries : Nat) (no_cache : Bool)
    (st : RunState) (hbs : 1 ≤ batch_size) :
    ((∀ n b r, scorer n b = Except.ok r → r.length = b.length) →
      ∀ r, (score_all_events events scorer batch_size no_cache
          max_retries st).1 = Except.ok r →
        r.length = events.length)
    ∧ ((∀ n b r, scorer n b ≠ Except.ok r) →
      ∀ r, (score_all_events events scorer batch_size true
          max_retries st).1 = Except.ok r →
        r.length = events.length ∧ ∀ se ∈ r, se.score = 0) := by
  constructor
  · intro H r hr
    unfold score_all_events at hr
    cases hl : (if no_cache then none
        else _load_cached_scores st.cacheFile events) with
    | some cached =>
      rw [hl] at hr
      have hr2 : Except.ok cached = Except.ok r := hr
      rw [← Except.ok.inj hr2]
      cases hnc : no_cache with
      | true =>
        rw [hnc] at hl
        exact Option.noConfusion hl
      | false =>
        rw [hnc] at hl
        rw [if_neg (by simp)] at hl
        exact load_some_length hl
    | none =>
      rw [hl] at hr
      have hlen : (sortByScoreDesc (scoreBatches scorer max_retries
          (create_batches events batch_size) st.calls).1).length
            = events.length := by
        rw [(sortByScoreDesc_perm _).length_eq,
          scoreBatches_length scorer max_retries H _ st.calls,
          create_batches_flatten events batch_size hbs]
      cases hnc : no_cache with
      | true =>
        rw [hnc] at hr
        have hr2 : Except.ok (sortByScoreDesc (scoreBatches scorer
            max_retries (create_batches events batch_size) st.calls).1)
              = Except.ok r := hr
        rw [← Except.ok.inj hr2]
        exact hlen
      | false =>
        rw [hnc] at hr
        cases hsf : st.saveFails with
        | true =>
          rw [hsf] at hr
          have hr2 : (Except.error "OSError: cache write failed"
              : Except String (List ScoredEvent)) = Except.ok r := hr
          exact Except.noConfusion hr2
        | false =>
          rw [hsf] at hr
          have hr2 : Except.ok (sortByScoreDesc (scoreBatches scorer
              max_retries (create_batches events batch_size) st.calls).1)
                = Except.ok r := hr
          rw [← Except.ok.inj hr2]
          exact hlen
  · intro hfail r hr
    unfold score_all_events at hr
    have hr2 : Except.ok (sortByScoreDesc (scoreBatches scorer max_retries
        (create_batches events batch_size) st.calls).1)
          = Except.ok r := hr
    have hreq := Except.ok.inj hr2
    have H : ∀ n b r2, scorer n b = Except.ok r2 → r2.length = b.length :=
      fun n b r2 h => absurd h (hfail n b r2)
    constructor
    · rw [← hreq, (sortByScoreDesc_perm _).length_eq,
        scoreBatches_length scorer max_retries H _ st.calls,
        create_batches_flatten events batch_size hbs]
    · intro se hse
      rw [← hreq] at hse
      have hse2 := (sortByScoreDesc_perm _).mem_iff.mp hse
      exact scoreBatches_fail_scores scorer max_retries hfail _ st.calls
        se hse2

/-- Witness for C1: the amended theorem applied to a one-event run under
the always-failing scorer, recovering the placeholder output length and
its zero score. -/
theorem score_all_events_output_length_witness :
    [failurePlaceholder "boom" evA].length = [evA].length
    ∧ ∀ se ∈ [failurePlaceholder "boom" evA], se.score = 0 :=
  (score_all_events_output_length [evA] failScorer 1 0 true
      { cacheFile := CacheFile.absent, saveFails := false, calls := 0 }
      (by omega)).2
    (fun n b r h => Except.noConfusion h)
    [failurePlaceholder "boom" evA] (by rfl)

/-- C1 counterexample.  With two events of distinct uids, batch size 12
and max_retries 0, a scorer whose per-batch behaviour is the bundled
response parser applied to a duplicate-uid model response makes
score_all_events return 3 ScoredEvents for 2 input events, refuting the
claim that the output always has exactly one entry per input event. -/
theorem score_all_events_output_length_cex :
    okLength (score_all_events [evA, evB] dupScorer 12 true 0
      { cacheFile := CacheFile.absent, saveFails := false, calls := 0 }).1
      = 3
    ∧ [evA, evB].length = 2 :=
  ⟨by rfl, by rfl⟩

/-! Cache roundtrip lemmas. -/

/-- When every stored record uid is carried by some event, rebuilding
succeeds on every record and serializing the rebuilt list restores the
stored records. -/
theorem filterMap_loadItem_all (events : List Event) :
    ∀ items : List CacheItem,
      (∀ it ∈ items, ∃ e ∈ events, e.uid = it.uid) →
      ∃ scored, items.filterMap (loadItem events) = scored
        ∧ scored.length = items.length
        ∧ _save_scores_data scored = items := by
  intro items
  induction items with
  | nil =>
    intro _
    exact ⟨[], rfl, rfl, rfl⟩
  | cons a l ih =>
    intro h
    have ha := h a (List.mem_cons_self a l)
    have hs : (lookupEvent events a.uid).isSome = true :=
      (lookupEvent_isSome events a.uid).mpr ha
    obtain ⟨e, he⟩ := Option.isSome_iff_exists.mp hs
    obtain ⟨scored, h1, h2, h3⟩ :=
      ih (fun it hit => h it (List.mem_cons_of_mem a hit))
    have hload : loadItem events a = some (scoredOfItem e a) := by
      unfold loadItem
      rw [he]
      rfl
    refine ⟨scoredOfItem e a :: scored, ?_, ?_, ?_⟩
    · rw [List.filterMap_cons, hload, h1]
    · rw [List.length_cons, h2]
      rfl
    · have huid : e.uid = a.uid := lookupEvent_uid he
      show _save_scores_data (scoredOfItem e a :: scored) = a :: l
      unfold _save_scores_data
      rw [List.map_cons]
      refine congrArg₂ List.cons ?_ h3
      cases a with
      | mk auid ascore arole atopic astrat areas =>
        show (⟨e.uid, ascore, arole, atopic, astrat, areas⟩ : CacheItem)
          = ⟨auid, ascore, arole, atopic, astrat, areas⟩
        rw [show e.uid = auid from huid]

/-- A stored record whose uids are all carried by events and whose size
matches the event count reloads as a hit whose serialization is the
stored record itself. -/
theorem load_roundtrip (events : List Event) (items : List CacheItem)
    (hcov : ∀ it ∈ items, ∃ e ∈ events, e.uid = it.uid)
    (hlen : items.length = events.length) :
    ∃ scored,
      _load_cached_scores (CacheFile.data items) events = some scored
      ∧ _save_scores_data scored = items := by
  obtain ⟨scored, h1, h2, h3⟩ := filterMap_loadItem_all events items hcov
  refine ⟨scored, ?_, h3⟩
  show (if (items.filterMap (loadItem events)).length = events.length
      then some (items.filterMap (loadItem events)) else none)
        = some scored
  rw [h1, if_pos (by rw [h2, hlen])]

/-- C8 (amended).  With caching enabled, a succeeding cache write,
batch size at least 1, and a scorer meeting the per-batch contract (one
record per batch event, drawn from the batch), running score_all_events
twice over the same events, profile and feed content makes the second
run a pure cache hit: it leaves the run state - including the scorer
invocation counter - unchanged, performs no backoff sleep, holds for an
arbitrary second scorer since that scorer is never invoked, and returns
a list whose per-record uid, score, components and reasoning content
(the serialized cache record) is identical to the first run result.
Without the contract the second run can miss and re-invoke the scorer
(see the counterexample). -/
theorem score_all_events_idempotent (events : List Event)
    (scorer scorer2 : Scorer) (batch_size max_retries : Nat)
    (st : RunState) (hbs : 1 ≤ batch_size) (hsave : st.saveFails = false)
    (H : ∀ n b r, scorer n b = Except.ok r →
        r.length = b.length ∧ ∀ se ∈ r, se.event ∈ b) :
    ∃ r1 r2,
      (score_all_events events scorer batch_size false max_retries st).1
        = Except.ok r1
      ∧ (score_all_events events scorer2 batch_size false max_retries
          (score_all_events events scorer batch_size false
            max_retries st).2.1).1 = Except.ok r2
      ∧ (score_all_events events scorer2 batch_size false max_retries
          (score_all_events events scorer batch_size false
            max_retries st).2.1).2
        = ((score_all_events events scorer batch_size false
            max_retries st).2.1, ([] : List Nat))
      ∧ _save_scores_data r2 = _save_scores_data r1 := by
  cases hl : _load_cached_scores st.cacheFile events with
  | some cached =>
    have e1 : score_all_events events scorer batch_size false max_retries st
        = (Except.ok cached, st, []) := by
      unfold score_all_events
      rw [hl]
      rfl
    have e2 : score_all_events events scorer2 batch_size false max_retries st
        = (Except.ok cached, st, []) := by
      unfold score_all_events
      rw [hl]
      rfl
    refine ⟨cached, cached, ?_, ?_, ?_, rfl⟩
    · rw [e1]
    · rw [e1, e2]
    · rw [e1, e2]
  | none =>
    have e1 : score_all_events events scorer batch_size false max_retries st
        = (Except.ok (sortByScoreDesc (scoreBatches scorer max_retries
            (create_batches events batch_size) st.calls).1),
           { st with
             calls := (scoreBatches scorer max_retries
               (create_batches events batch_size) st.calls).2.1,
             cacheFile := CacheFile.data (_save_scores_data
               (sortByScoreDesc (scoreBatches scorer max_retries
                 (create_batches events batch_size) st.calls).1)) },
           (scoreBatches scorer max_retries
             (create_batches events batch_size) st.calls).2.2) := by
      unfold score_all_events
      rw [hl, hsave]
      rfl
    have hlen1 : (sortByScoreDesc (scoreBatches scorer max_retries
        (create_batches events batch_size) st.calls).1).length
          = events.length := by
      rw [(sortByScoreDesc_perm _).length_eq,
        scoreBatches_length scorer max_retries
          (fun n b r h => (H n b r h).1) _ st.calls,
        create_batches_flatten events batch_size hbs]
    have hmem1 : ∀ se ∈ sortByScoreDesc (scoreBatches scorer max_retries
        (create_batches events batch_size) st.calls).1,
        se.event ∈ events := by
      intro se hse
      have hse2 := (sortByScoreDesc_perm _).mem_iff.mp hse
      obtain ⟨b, hb, hm⟩ := scoreBatches_mem scorer max_retries
        (fun n b r h => (H n b r h).2) _ st.calls se hse2
      exact create_batches_subset events batch_size b hb hm
    have hcov : ∀ it ∈ _save_scores_data (sortByScoreDesc
        (scoreBatches scorer max_retries
          (create_batches events batch_size) st.calls).1),
        ∃ e ∈ events, e.uid = it.uid := by
      intro it hit
      rcases List.mem_map.mp hit with ⟨se, hse, h2⟩
      exact ⟨se.event, hmem1 se hse, by rw [← h2]⟩
    have hlen2 : (_save_scores_data (sortByScoreDesc
        (scoreBatches scorer max_retries
          (create_batches events batch_size) st.calls).1)).length
          = events.length := by
      unfold _save_scores_data
      rw [List.length_map]
      exact hlen1
    obtain ⟨scored2, hload2, hsv2⟩ := load_roundtrip events
      (_save_scores_data (sortByScoreDesc (scoreBatches scorer max_retries
        (create_batches events batch_size) st.calls).1)) hcov hlen2
    have e2 : score_all_events events scorer2 batch_size false max_retries
        { st with
          calls := (scoreBatches scorer max_retries
            (create_batches events batch_size) st.calls).2.1,
          cacheFile := CacheFile.data (_save_scores_data
            (sortByScoreDesc (scoreBatches scorer max_retries
              (create_batches events batch_size) st.calls).1)) }
        = (Except.ok scored2,
           { st with
             calls := (scoreBatches scorer max_retries
               (create_batches events batch_size) st.calls).2.1,
             cacheFile := CacheFile.data (_save_scores_data
               (sortByScoreDesc (scoreBatches scorer max_retries
                 (create_batches events batch_size) st.calls).1)) },
           []) := by
      unfold score_all_events
      rw [show _load_cached_scores ({ st with
          calls := (scoreBatches scorer max_retries
            (create_batches events batch_size) st.calls).2.1,
          cacheFile := CacheFile.data (_save_scores_data
            (sortByScoreDesc (scoreBatches scorer max_retries
              (create_batches events batch_size) st.calls).1)) }
            : RunState).cacheFile events = some scored2 from hload2]
      rfl
    refine ⟨sortByScoreDesc (scoreBatches scorer max_retries
      (create_batches events batch_size) st.calls).1, scored2,
      ?_, ?_, ?_, ?_⟩
    · rw [e1]
    · rw [e1]
      exact congrArg Prod.fst e2
    · rw [e1]
      exact congrArg Prod.snd e2
    · rw [hsv2]

/-- A scorer that succeeds immediately with one record per batch
event. -/
def okScorer : Scorer :=
  fun _ b => Except.ok (b.map (fun e => { event := e, score := 10 }))

/-- Witness for C8: the idempotence theorem applied to a one-event run
under the immediately succeeding scorer. -/
theorem score_all_events_idempotent_witness :
    ∃ r1 r2,
      (score_all_events [evA] okScorer 1 false 0
        { cacheFile := CacheFile.absent, saveFails := false,
          calls := 0 }).1 = Except.ok r1
      ∧ (score_all_events [evA] okScorer 1 false 0
          (score_all_events [evA] okScorer 1 false 0
            { cacheFile := CacheFile.absent, saveFails := false,
              calls := 0 }).2.1).1 = Except.ok r2
      ∧ (score_all_events [evA] okScorer 1 false 0
          (score_all_events [evA] okScorer 1 false 0
            { cacheFile := CacheFile.absent, saveFails := false,
              calls := 0 }).2.1).2
        = ((score_all_events [evA] okScorer 1 false 0
            { cacheFile := CacheFile.absent, saveFails := false,
              calls := 0 }).2.1, ([] : List Nat))
      ∧ _save_scores_data r2 = _save_scores_data r1 :=
  score_all_events_idempotent [evA] okScorer okScorer 1 0
    { cacheFile := CacheFile.absent, saveFails := false, calls := 0 }
    (by omega) rfl
    (by
      intro n b r h
      have h2 := Except.ok.inj h
      constructor
      · rw [← h2, List.length_map]
      · intro se hse
        rw [← h2] at hse
        rcases List.mem_map.mp hse with ⟨e, he, h3⟩
        rw [← h3]
        exact he)

/-- C8 counterexample.  Under the scorer whose per-batch behaviour is
the bundled response parser applied to a duplicate-uid model response,
a first cached run over two events stores three records, the reload
length check fails, and the second run with caching enabled is a full
miss that invokes the scorer again: the invocation counter is 1 after
the first run and 2 after the second, refuting the claim that the
second run invokes the scorer zero times. -/
theorem score_all_events_idempotent_cex :
    (score_all_events [evA, evB] dupScorer 12 false 0
      { cacheFile := CacheFile.absent, saveFails := false,
        calls := 0 }).2.1.calls = 1
    ∧ (score_all_events [evA, evB] dupScorer 12 false 0
        (score_all_events [evA, evB] dupScorer 12 false 0
          { cacheFile := CacheFile.absent, saveFails := false,
            calls := 0 }).2.1).2.1.calls = 2 :=
  ⟨by rfl, by rfl⟩
